import Mathlib

/-!
Shallow embedding of the Bulletproofs++ core of the `distributed-lab/bulletproofs`
Go library (WNLA, arithmetic-circuit argument, reciprocal range proof, Keccak
Fiat-Shamir transcript), together with proofs about the embedded definitions.

Modelling conventions.

* Scalars (`*big.Int` reduced modulo `bn256.Order`) are `ZMod Q` where `Q` is the
  literal value of `bn256.Order` of the cloudflare `bn256` package.  All Go scalar
  helpers (`add`, `sub`, `mul`, …) reduce modulo the order, so they are exactly
  the ring operations of `ZMod Q`.
* The group `bn256.G1` is cyclic of prime order `Q`; a point is represented by its
  discrete logarithm with respect to a fixed generator, i.e. `Point := ZMod Q`.
  `Add` of points is `+`, `ScalarMult(p, k)` is `k * p`, the point at infinity is
  `0`, and `Marshal`-equality of points is equality in `ZMod Q`.  Theorems proved
  for every value of the embedded generators therefore hold for the actual group.
* Go slices of scalars / points are `List Scalar` / `List Point`.  The Go vector
  helpers pad the shorter argument with zeros (scalars) or the point at infinity
  (points); the embeddings reproduce this padding behaviour.
* `inv` (`big.Int.ModInverse`) is the extended Euclid inverse, implemented with
  explicit fuel so that it is kernel-computable.  Go returns `nil` exactly for
  non-invertible arguments, and every use of such a `nil` scalar in this code
  base flows through `mul`/`add`, which treat `nil` as `0`; the embedding
  returns `0` there.
-/

namespace Bulletproofs

/-- Order of the `bn256` group (`bn256.Order` in the cloudflare package). -/
def Q : ℕ := 65000549695646603732796438742359905742570406053903786389881062969044166799969

instance : Fact (1 < Q) := ⟨by norm_num [Q]⟩

/-- Scalar field element: an integer modulo `bn256.Order`. -/
abbrev Scalar : Type := ZMod Q

/-- A `bn256.G1` point, represented by its discrete logarithm (the group is
cyclic of prime order `Q`). -/
abbrev Point : Type := ZMod Q

/-- Go `bint(v)`: an (signed) integer reduced into the scalar field. -/
def bint (v : ℤ) : Scalar := (v : Scalar)

/-- Go `bbool(v)`: `1` for `true`, `0` for `false`. -/
def bbool (v : Bool) : Scalar := if v then 1 else 0

/-- Extended Euclid with explicit fuel: `eGcdF f a b = (g, s, t)` with
`g = gcd a b` and `s·a + t·b = g` whenever `b ≤ f` (the second argument
strictly decreases, so the fuel bound is maintained).  This is the algorithm
behind `big.Int.ModInverse`; the fuel only makes the recursion structural. -/
def eGcdF : ℕ → ℕ → ℕ → ℤ × ℤ × ℤ
  | 0, a, _ => ((a : ℤ), 1, 0)
  | _ + 1, a, 0 => ((a : ℤ), 1, 0)
  | f + 1, a, b + 1 =>
    let q := a / (b + 1)
    let r := a % (b + 1)
    let p := eGcdF f (b + 1) r
    (p.1, p.2.2, p.2.1 - (q : ℤ) * p.2.2)

/-- Go `inv(x)` (`big.Int.ModInverse(x, bn256.Order)`, i.e. the extended
Euclid inverse).  For a non-invertible argument Go returns `nil`; every use
of such a `nil` scalar in this code base goes through `mul`/`add`, which
treat `nil` as `0` (see `zeroIfNil`), so the embedding returns `0` there. -/
def inv (x : Scalar) : Scalar :=
  let p := eGcdF Q x.val Q
  if p.1 = 1 then ((p.2.1 : ℤ) : Scalar) else 0

/-- Go `minus(x) = sub(bint(0), x)`. -/
def minus (x : Scalar) : Scalar := 0 - x

/-- Go `pow(x, y)` for `int` exponents: `Exp(x, y)` for `y ≥ 0`,
`Exp(inv x, -y)` for `y < 0`. -/
def pow (x : Scalar) (y : ℤ) : Scalar :=
  if y < 0 then (inv x) ^ (-y).toNat else x ^ y.toNat

/-- Go `powerOfTwo(x)`: the smallest power of two that is `≥ x` (computed by
doubling starting from 1). -/
def powerOfTwo (x : ℕ) : ℕ := 2 ^ (Nat.clog 2 x)

/-- Zero-padding used throughout the Go vector helpers: `append` zeros until the
length reaches `n` (a no-op when the vector is already at least that long). -/
def padZeros (a : List Scalar) (n : ℕ) : List Scalar :=
  a ++ List.replicate (n - a.length) 0

/-- Go `zeroVector(n)`. -/
def zeroVector (n : ℕ) : List Scalar := List.replicate n 0

/-- Go `oneVector(n)`. -/
def oneVector (n : ℕ) : List Scalar := List.replicate n 1

/-- Go `vectorAdd`: pad both arguments with zeros to the common length, then add
elementwise. -/
def vectorAdd (a b : List Scalar) : List Scalar :=
  List.zipWith (· + ·) (padZeros a (max a.length b.length)) (padZeros b (max a.length b.length))

/-- Go `vectorSub`: pad both arguments with zeros to the common length, then
subtract elementwise. -/
def vectorSub (a b : List Scalar) : List Scalar :=
  List.zipWith (· - ·) (padZeros a (max a.length b.length)) (padZeros b (max a.length b.length))

/-- Go `vectorMulOnScalar`. -/
def vectorMulOnScalar (a : List Scalar) (c : Scalar) : List Scalar :=
  a.map (· * c)

/-- Go `vectorMul`: pad both arguments with zeros to the common length, then sum
the products. -/
def vectorMul (a b : List Scalar) : Scalar :=
  (List.zipWith (· * ·) (padZeros a (max a.length b.length))
    (padZeros b (max a.length b.length))).sum

/-- Recursion used by `weightVectorMul`, carrying the running power `exp` of
`mu` exactly as the Go loop does. -/
def weightAux (mu : Scalar) : List Scalar → List Scalar → Scalar → Scalar
  | x :: xs, y :: ys, exp => x * y * exp + weightAux mu xs ys (exp * mu)
  | _, _, _ => 0

/-- Go `weightVectorMul`: pad both arguments with zeros to the common length,
then sum `aᵢ·bᵢ·μ^(i+1)` (the loop starts with `exp = mu`). -/
def weightVectorMul (a b : List Scalar) (mu : Scalar) : Scalar :=
  weightAux mu (padZeros a (max a.length b.length))
    (padZeros b (max a.length b.length)) mu

/-- Go `vectorPointScalarMul`: `Σ aᵢ·gᵢ` over the indices of `g` (`a` is padded
with zeros when shorter; surplus entries of `a` are ignored; the empty `g` gives
the point at infinity). -/
def vectorPointScalarMul (g : List Point) (a : List Scalar) : Point :=
  ((List.range g.length).map (fun i => a.getD i 0 * g.getD i 0)).sum

/-- Go `vectorPointsAdd`: pad both arguments with the point at infinity to the
common length, then add elementwise. -/
def vectorPointsAdd (a b : List Point) : List Point :=
  List.zipWith (· + ·) (padZeros a (max a.length b.length)) (padZeros b (max a.length b.length))

/-- Go `vectorPointMulOnScalar`: `ScalarMult(gᵢ, a)` elementwise. -/
def vectorPointMulOnScalar (g : List Point) (a : Scalar) : List Point :=
  g.map (fun p => a * p)

/-- Go `vectorTensorMul`: for each entry of `b`, append `a` scaled by it. -/
def vectorTensorMul (a b : List Scalar) : List Scalar :=
  (b.map (fun bi => vectorMulOnScalar a bi)).flatten

/-- Go `e(v, a)`: the geometric sequence `(1, v, v², …, v^(a-1))`. -/
def e (v : Scalar) (a : ℕ) : List Scalar :=
  (List.range a).map (fun i => v ^ i)

/-- Go `hadamardMul`: elementwise product over the indices of `a` (the Go code
indexes `b` by the same indices; callers always pass equal lengths). -/
def hadamardMul (a b : List Scalar) : List Scalar :=
  (List.range a.length).map (fun i => a.getD i 0 * b.getD i 0)

/-- Go `diagInv(x, n)`: the `n×n` diagonal matrix with `x⁻¹^(i+1)` at position
`(i,i)` (the running value starts at `inv x` and is multiplied by `inv x` after
every diagonal write). -/
def diagInv (x : Scalar) (n : ℕ) : List (List Scalar) :=
  (List.range n).map (fun i =>
    (List.range n).map (fun j => if i = j then (inv x) ^ (i + 1) else 0))

/-- Go `vectorMulOnMatrix(a, m)`: the row vector `a·m` (one `vectorMul` of `a`
with each column of `m`; the Go code reads the column count from the first row). -/
def vectorMulOnMatrix (a : List Scalar) (m : List (List Scalar)) : List Scalar :=
  (List.range (m.headD []).length).map (fun j =>
    vectorMul a (m.map (fun row => row.getD j 0)))

/-! Go scalar helpers over possibly-`nil` `*big.Int` values
(`math_scalars.go`).  A `nil` pointer is `none`. -/

/-- Go `zeroIfNil`. -/
def zeroIfNil (x : Option Scalar) : Scalar := x.getD 0

/-- Go `add`: both arguments are passed through `zeroIfNil`, then added mod q. -/
def add (x y : Option Scalar) : Scalar := zeroIfNil x + zeroIfNil y

/-- Go `sub`: both arguments are passed through `zeroIfNil`, then subtracted
mod q. -/
def sub (x y : Option Scalar) : Scalar := zeroIfNil x - zeroIfNil y

/-- Go `mul`: returns `0` when either argument is `nil`, else the product
mod q. -/
def mul (x y : Option Scalar) : Scalar :=
  if x = none ∨ y = none then 0 else zeroIfNil x * zeroIfNil y

/-- One step of the prover's Laurent-coefficient accumulation
(`f_[k] = add/sub(f_[k], v)` on the Go map `f_`, whose absent entries read as
`nil`): store the updated value at key `k`. -/
def mapUpdate (m : ℤ → Option Scalar) (k : ℤ) (isSub : Bool) (v : Scalar) :
    ℤ → Option Scalar :=
  Function.update m k (some (if isSub then sub (m k) (some v) else add (m k) (some v)))

/-- A sequence of accumulation steps on the Go map (key, add-or-sub, value). -/
def applyUpdates : (ℤ → Option Scalar) → List (ℤ × Bool × Scalar) → ℤ → Option Scalar
  | m, [] => m
  | m, u :: rest => applyUpdates (mapUpdate m u.1 u.2.1 u.2.2) rest

/-- The same accumulation on plain scalars with every entry initialised to
`0` (the intended mathematical reading). -/
def applyUpdatesZ : (ℤ → Scalar) → List (ℤ × Bool × Scalar) → ℤ → Scalar
  | m, [] => m
  | m, u :: rest =>
    applyUpdatesZ (Function.update m u.1 (if u.2.1 then m u.1 - u.2.2 else m u.1 + u.2.2)) rest

/-! The reciprocal range proof (`reciprocal.go`).  The claims about it concern
the constraint matrices `Wm` and `Wl` built inside `ProveRange`
(lines 66–107) and inside `VerifyRange` (lines 168–209); the two code slices
are textually identical except for the `base` used in the value row, so the
embedding factors the construction over `base`. -/

/-- Go `ReciprocalPublic` (`Nd` digits, base `Np`; `Nm = Nd`, `No = Np`,
`Nv = 1 + Nd`). -/
structure ReciprocalPublic where
  G : Point
  GVec : List Point
  HVec : List Point
  Nd : ℕ
  Np : ℕ
  GVec_ : List Point
  HVec_ : List Point

/-- Go `ReciprocalPrivate`. -/
structure ReciprocalPrivate where
  X : Scalar
  M : List Scalar
  Digits : List Scalar
  S : Scalar

/-- Matrix entry assignment `m[i][j] = v` (`m` rectangular, in-range in all
uses). -/
def setM (m : List (List Scalar)) (i j : ℕ) (v : Scalar) : List (List Scalar) :=
  m.set i ((m.getD i []).set j v)

/-- Go `zeroMatrix(n, m)`. -/
def zeroMatrix (n m : ℕ) : List (List Scalar) :=
  (List.range n).map (fun _ => zeroVector m)

/-- The Hadamard-constraint matrix of `ProveRange`/`VerifyRange` (identical in
both): `Wm = 0` except `Wm[i][i+Nm] = −e` for `i < Nm`, with `Nm = Nd`,
`Nw = 2Nd + Np`. -/
def rangeWm (Nd Np : ℕ) (ch : Scalar) : List (List Scalar) :=
  (List.range Nd).foldl (fun M i => setM M i (i + Nd) (minus ch))
    (zeroMatrix Nd (Nd + Nd + Np))

/-- The linear-constraint matrix of `ProveRange`/`VerifyRange`, with the
base of the value row as a parameter (`ProveRange` passes `bint Np`,
`VerifyRange` passes `bint 16`); the assignments follow the source's
order, including the overwrite of the diagonal in the `r` block. -/
def rangeWl (Nd Np : ℕ) (ch base : Scalar) : List (List Scalar) :=
  let Nm := Nd
  let No := Np
  let Nl := Nd + Nd + Np + 1
  let Nw := Nd + Nd + Np
  let W0 := zeroMatrix Nl Nw
  let W1 := (List.range Nm).foldl (fun M i => setM M 0 i (minus (pow base i))) W0
  let W2 := (List.range Nm).foldl (fun M i => setM M (i + 1) i (bint (-1))) W1
  let W3 := (List.range No).foldl (fun M i => setM M (i + Nm + 1) (i + 2 * Nm) (bint (-1))) W2
  let W4 := (List.range Nm).foldl (fun M i =>
    (List.range Nm).foldl (fun M2 j => setM M2 (i + Nm + No + 1) (j + Nm) 1) M) W3
  let W5 := (List.range Nm).foldl (fun M i => setM M (i + Nm + No + 1) (i + Nm) (bint 0)) W4
  let W6 := (List.range Nm).foldl (fun M i =>
    (List.range No).foldl (fun M2 j =>
      setM M2 (i + Nm + No + 1) (j + 2 * Nm) (minus (inv (ch + bint j)))) M) W5
  W6

/-- The `Wm` matrix built inside `ProveRange` for challenge `e`. -/
def proveRangeWm (pub : ReciprocalPublic) (ch : Scalar) : List (List Scalar) :=
  rangeWm pub.Nd pub.Np ch

/-- The `Wm` matrix built inside `VerifyRange` for challenge `e` (the same
construction as the prover's). -/
def verifyRangeWm (pub : ReciprocalPublic) (ch : Scalar) : List (List Scalar) :=
  rangeWm pub.Nd pub.Np ch

/-- The `Wl` matrix built inside `ProveRange`: value row uses
`base := bint(public.Np)`. -/
def proveRangeWl (pub : ReciprocalPublic) (ch : Scalar) : List (List Scalar) :=
  rangeWl pub.Nd pub.Np ch (bint pub.Np)

/-- The `Wl` matrix built inside `VerifyRange`: value row uses the hardcoded
`base := bint(16)`. -/
def verifyRangeWl (pub : ReciprocalPublic) (ch : Scalar) : List (List Scalar) :=
  rangeWl pub.Nd pub.Np ch (bint 16)

/-- A `ReciprocalPublic` with two digits in base 10 (the base points play no
role in the constraint matrices). -/
def rp10 : ReciprocalPublic :=
  { G := 0, GVec := [], HVec := [], Nd := 2, Np := 10, GVec_ := [], HVec_ := [] }

/-! The concrete Keccak-based Fiat-Shamir engine (`fs.go`).  The Keccak256
hash itself is an external collaborator; theorems about `KeccakFS` are
quantified over the hash function and speak about the byte stream it is
applied to. -/

/-- Big-endian minimal byte encoding of a natural number (`big.Int.Bytes`):
base-256 digits, most significant first, empty for `0`. -/
def natBytesBE (n : ℕ) : List ℕ := (Nat.digits 256 n).reverse

/-- Go `scalarTo32Byte`: the 32-byte big-endian encoding, left-padded with
zeros (an encoding longer than 32 bytes keeps its first 32 bytes). -/
def scalarTo32Byte (s : Scalar) : List ℕ :=
  let arr := natBytesBE s.val
  if 32 ≤ arr.length then arr.take 32
  else List.replicate (32 - arr.length) 0 ++ arr

/-- Go `KeccakFS`: the Keccak state is the byte stream written so far, plus the
monotone challenge counter.  (`AddPoint` writes the 64-byte marshalled point;
it is not needed for the claims below.) -/
structure KeccakFS where
  state : List ℕ
  counter : ℕ
deriving DecidableEq

/-- Go `NewKeccakFS`. -/
def NewKeccakFS : KeccakFS := { state := [], counter := 0 }

/-- Go `KeccakFS.AddNumber`: writes `scalarTo32Byte v` into the hash state. -/
def KeccakFS.AddNumber (k : KeccakFS) (v : Scalar) : KeccakFS :=
  { k with state := k.state ++ scalarTo32Byte v }

/-- Go `KeccakFS.GetChallenge`: increments the counter, absorbs it as a
scalar, and returns `Keccak256(state) mod q` (the hash is the parameter
`keccak`; `SetBytes` of the digest followed by `Mod Order` is the natural-cast
into `ZMod Q`). -/
def KeccakFS.GetChallenge (keccak : List ℕ → ℕ) (k : KeccakFS) :
    Scalar × KeccakFS :=
  let k1 : KeccakFS := { state := k.state, counter := k.counter + 1 }
  let k2 := k1.AddNumber (bint (k1.counter : ℤ))
  (((keccak k2.state : ℕ) : Scalar), k2)

/-! Fiat-Shamir transcripts.

The Go code programs against the `FiatShamirEngine` interface: an absorb-only
state plus `GetChallenge`.  We model the state of an engine as the list of
items absorbed so far (points, numbers, and one marker per challenge drawn —
`KeccakFS` also absorbs its internal counter on every challenge, so a
challenge changes the state), and the engine's hash as an arbitrary function
`chal` from states to scalars.  `KeccakFS` is an instance: serialise the item
list to bytes and apply Keccak256.  Prover and verifier use the same `chal`
(the same oracle); a theorem quantified over `chal` holds for every
deterministic engine, in particular for `KeccakFS`. -/

/-- One item absorbed into a Fiat-Shamir transcript. -/
inductive FSItem where
  | pt (p : Point)
  | num (v : Scalar)
  | ch
deriving DecidableEq

/-- `FiatShamirEngine.AddPoint`. -/
def fsAddPoint (tr : List FSItem) (p : Point) : List FSItem := tr ++ [FSItem.pt p]

/-- `FiatShamirEngine.AddNumber`. -/
def fsAddNumber (tr : List FSItem) (v : Scalar) : List FSItem := tr ++ [FSItem.num v]

/-- `FiatShamirEngine.GetChallenge`: the engine mutates its state (for
`KeccakFS`: increments and absorbs the counter) and returns a scalar that is a
deterministic function of the new state. -/
def fsGetChallenge (chal : List FSItem → Scalar) (tr : List FSItem) :
    Scalar × List FSItem :=
  (chal (tr ++ [FSItem.ch]), tr ++ [FSItem.ch])

/-! The weight norm linear argument (`wnla.go`). -/

/-- Go `WeightNormLinearPublic`. -/
structure WeightNormLinearPublic where
  G : Point
  GVec : List Point
  HVec : List Point
  C : List Scalar
  Ro : Scalar
  Mu : Scalar
deriving DecidableEq

/-- Go `WeightNormLinearArgumentProof`. -/
structure WeightNormLinearArgumentProof where
  R : List Point
  X : List Point
  L : List Scalar
  N : List Scalar
deriving DecidableEq

/-- Go `WeightNormLinearPublic.Commit`:
`Commit(l, n) = v·G + ⟨l, HVec⟩ + ⟨n, GVec⟩` with `v = ⟨C, l⟩ + ⟨n,n⟩_μ`. -/
def WeightNormLinearPublic.Commit (p : WeightNormLinearPublic)
    (l n : List Scalar) : Point :=
  (vectorMul p.C l + weightVectorMul n n p.Mu) * p.G
    + vectorPointScalarMul p.HVec l + vectorPointScalarMul p.GVec n

/-- Go `reduceVector`: split into even-indexed and odd-indexed halves. -/
def reduceVector : List Scalar → List Scalar × List Scalar
  | [] => ([], [])
  | [x] => ([x], [])
  | x :: y :: rest =>
    let p := reduceVector rest
    (x :: p.1, y :: p.2)

/-- Go `reducePoints` (same even/odd split, on points). -/
def reducePoints (v : List Point) : List Point × List Point := reduceVector v

/-- Errors returned by the verifiers (`errors.New` values in Go). -/
inductive WnlaError where
  /-- Go: `invalid length for R and X vectors: should be equal`. -/
  | lengthMismatch
  /-- Go: `failed to verify proof`. -/
  | verificationFailed
deriving DecidableEq

deriving instance DecidableEq for Except

/-- The public parameters both `ProveWNLA` and `VerifyWNLA` construct for their
recursive call (identical struct literals at both sites):
`G' = G`, `GVec' = ρ·G₀ + y·G₁`, `HVec' = H₀ + y·H₁`, `C' = c₀ + y·c₁`,
`Ro' = μ`, `Mu' = μ²`. -/
def wnlaFold (p : WeightNormLinearPublic) (y : Scalar) : WeightNormLinearPublic :=
  { G := p.G
    GVec := vectorPointsAdd (vectorPointMulOnScalar (reducePoints p.GVec).1 p.Ro)
      (vectorPointMulOnScalar (reducePoints p.GVec).2 y)
    HVec := vectorPointsAdd (reducePoints p.HVec).1
      (vectorPointMulOnScalar (reducePoints p.HVec).2 y)
    C := vectorAdd (reduceVector p.C).1 (vectorMulOnScalar (reduceVector p.C).2 y)
    Ro := p.Mu
    Mu := p.Mu * p.Mu }

/-- Recursion of Go `VerifyWNLA`, structural in the `X` list (the Go function
destructures `proof` into its four fields; each recursive call passes the
tails of `X` and `R`). -/
def verifyWNLAx (chal : List FSItem → Scalar) :
    List Point → List Point → WeightNormLinearPublic → List Scalar →
    List Scalar → Point → List FSItem → Except WnlaError Unit × List FSItem
  | [], R, p, L, N, Com, tr =>
    if (0 : ℕ) ≠ R.length then (Except.error WnlaError.lengthMismatch, tr)
    else if p.Commit L N = Com then (Except.ok (), tr)
    else (Except.error WnlaError.verificationFailed, tr)
  | x :: xs, r :: rs, p, L, N, Com, tr =>
    if xs.length ≠ rs.length then (Except.error WnlaError.lengthMismatch, tr)
    else
      let tr5 := fsAddNumber (fsAddNumber (fsAddPoint (fsAddPoint
        (fsAddPoint tr Com) x) r) (bint p.HVec.length)) (bint p.GVec.length)
      let yc := fsGetChallenge chal tr5
      let y := yc.1
      let Com' := Com + y * x + (y * y - 1) * r
      verifyWNLAx chal xs rs (wnlaFold p y) L N Com' yc.2
  | _ :: _, [], _, _, _, _, tr => (Except.error WnlaError.lengthMismatch, tr)

/-- Go `VerifyWNLA` (returns the error outcome together with the final engine
state; the Go function mutates the caller's engine and returns only the
error). -/
def VerifyWNLA (chal : List FSItem → Scalar) (public : WeightNormLinearPublic)
    (proof : WeightNormLinearArgumentProof) (Com : Point) (tr : List FSItem) :
    Except WnlaError Unit × List FSItem :=
  verifyWNLAx chal proof.X proof.R public proof.L proof.N Com tr

/-- Fuel-indexed recursion of Go `ProveWNLA`.  The Go recursion terminates
because `|l| + |n|` strictly decreases while it is `≥ 6`; the wrapper
`ProveWNLA` supplies `|l| + |n|` as fuel, which is always sufficient
(`proveWNLAx_fuel` below), so the zero-fuel branch is never reached. -/
def proveWNLAx (chal : List FSItem → Scalar) :
    ℕ → WeightNormLinearPublic → Point → List FSItem → List Scalar →
    List Scalar → WeightNormLinearArgumentProof × List FSItem
  | 0, _, _, tr, l, n => (⟨[], [], l, n⟩, tr)
  | fuel + 1, p, Com, tr, l, n =>
    if l.length + n.length < 6 then (⟨[], [], l, n⟩, tr)
    else
      let roinv := inv p.Ro
      let c0 := (reduceVector p.C).1
      let c1 := (reduceVector p.C).2
      let l0 := (reduceVector l).1
      let l1 := (reduceVector l).2
      let n0 := (reduceVector n).1
      let n1 := (reduceVector n).2
      let G0 := (reducePoints p.GVec).1
      let G1 := (reducePoints p.GVec).2
      let H0 := (reducePoints p.HVec).1
      let H1 := (reducePoints p.HVec).2
      let mu2 := p.Mu * p.Mu
      let vx := weightVectorMul n0 n1 mu2 * (2 * roinv)
        + (vectorMul c0 l1 + vectorMul c1 l0)
      let vr := weightVectorMul n1 n1 mu2 + vectorMul c1 l1
      let X := vx * p.G + vectorPointScalarMul H0 l1 + vectorPointScalarMul H1 l0
        + vectorPointScalarMul G0 (vectorMulOnScalar n1 p.Ro)
        + vectorPointScalarMul G1 (vectorMulOnScalar n0 roinv)
      let R := vr * p.G + vectorPointScalarMul H1 l1 + vectorPointScalarMul G1 n1
      let tr5 := fsAddNumber (fsAddNumber (fsAddPoint (fsAddPoint
        (fsAddPoint tr Com) X) R) (bint p.HVec.length)) (bint p.GVec.length)
      let yc := fsGetChallenge chal tr5
      let y := yc.1
      let l' := vectorAdd l0 (vectorMulOnScalar l1 y)
      let n' := vectorAdd (vectorMulOnScalar n0 roinv) (vectorMulOnScalar n1 y)
      let res := proveWNLAx chal fuel (wnlaFold p y) (p.Commit l' n') yc.2 l' n'
      (⟨R :: res.1.R, X :: res.1.X, res.1.L, res.1.N⟩, res.2)

/-- Go `ProveWNLA`.  Note (faithful to the source, line 796 of `wnla.go`): the
commitment passed to the recursive call is `public.Commit(l', n')`, computed
with the **current** (pre-fold) public parameters, while the recursive call
itself receives the folded parameters. -/
def ProveWNLA (chal : List FSItem → Scalar) (public : WeightNormLinearPublic)
    (Com : Point) (tr : List FSItem) (l n : List Scalar) :
    WeightNormLinearArgumentProof × List FSItem :=
  proveWNLAx chal (l.length + n.length) public Com tr l n

/-- Go `NewWeightNormLinearPublic(lLen, nLen)`: the Go function samples the
generator, the two base vectors (of lengths `nLen` and `lLen`), the
coefficient vector (length `lLen`) and `ro` at random and sets `Mu = ro·ro`;
the embedding receives the sampled values as arguments. -/
def NewWeightNormLinearPublic (g : Point) (gvec hvec : List Point)
    (c : List Scalar) (ro : Scalar) : WeightNormLinearPublic :=
  { G := g, GVec := gvec, HVec := hvec, C := c, Ro := ro, Mu := ro * ro }

/-- The folding loop of `VerifyWNLA` without its equality checks: the public
parameters, commitment and transcript state with which the verifier reaches
its base case (one fold, with the same absorbs and challenge, per `(X, R)`
pair of the proof). -/
def verifyWNLAFold (chal : List FSItem → Scalar) :
    List Point → List Point → WeightNormLinearPublic → Point → List FSItem →
    WeightNormLinearPublic × Point × List FSItem
  | [], _, p, Com, tr => (p, Com, tr)
  | _ :: _, [], p, Com, tr => (p, Com, tr)
  | x :: xs, r :: rs, p, Com, tr =>
    let tr5 := fsAddNumber (fsAddNumber (fsAddPoint (fsAddPoint
      (fsAddPoint tr Com) x) r) (bint p.HVec.length)) (bint p.GVec.length)
    let yc := fsGetChallenge chal tr5
    let y := yc.1
    verifyWNLAFold chal xs rs (wnlaFold p y) (Com + y * x + (y * y - 1) * r) yc.2

/-- Weight given to a transcript item by the content-sensitive challenge
stand-in `chalSum`. -/
def itemWeight : FSItem → Scalar
  | FSItem.pt p => 3 * p + 1
  | FSItem.num v => 5 * v + 2
  | FSItem.ch => 7

/-- A concrete challenge function that (like `KeccakFS`) depends on the whole
absorbed transcript, used to evaluate the protocols on explicit inputs. -/
def chalSum (tr : List FSItem) : Scalar := (tr.map itemWeight).sum + 3

/-- Concrete WNLA public parameters with `|HVec| = |C| = 8 = 2³`,
`|GVec| = 4 = 2²` and `Mu = Ro²` (the shape of scenario S2). -/
def pubS2 : WeightNormLinearPublic :=
  { G := 2, GVec := [3, 5, 37, 41], HVec := [7, 11, 13, 17, 43, 47, 53, 59]
    C := [19, 23, 29, 31, 61, 67, 71, 73], Ro := 3, Mu := 9 }

/-- Concrete secret vector `l` (length 8) for `pubS2`. -/
def lS2 : List Scalar := [1, 2, 3, 4, 5, 6, 7, 8]

/-- Concrete secret vector `n` (length 4) for `pubS2`. -/
def nS2 : List Scalar := [5, 6, 7, 8]

/-! The BP++ arithmetic-circuit argument (`circuit.go`).  The prover and the
verifier of the source compute the challenge-derived vectors (`lambdaVec`,
`muVec`, `cnL`, …, `cl_T`, `pnT`, `psT`, `cr_T`) with textually identical
code; the embedding factors each of these into one definition used by both. -/

/-- Go `PartitionType`. -/
inductive PartitionType where
  | LO
  | LL
  | LR
  | NO
deriving DecidableEq

/-- Go `ArithmeticCircuitPublic` (`GVec_`/`HVec_` are the extension vectors
used to pad the bases to a power of two for WNLA). -/
structure ArithmeticCircuitPublic where
  Nm : ℕ
  Nl : ℕ
  Nv : ℕ
  Nw : ℕ
  No : ℕ
  K : ℕ
  G : Point
  GVec : List Point
  HVec : List Point
  Wm : List (List Scalar)
  Wl : List (List Scalar)
  Am : List Scalar
  Al : List Scalar
  Fl : Bool
  Fm : Bool
  F : PartitionType → ℕ → Option ℕ
  GVec_ : List Point
  HVec_ : List Point

/-- Go `ArithmeticCircuitPrivate`. -/
structure ArithmeticCircuitPrivate where
  V : List (List Scalar)
  Sv : List Scalar
  Wl : List Scalar
  Wr : List Scalar
  Wo : List Scalar

/-- Go `ArithmeticCircuitProof`. -/
structure ArithmeticCircuitProof where
  CL : Point
  CR : Point
  CO : Point
  CS : Point
  WNLA : WeightNormLinearArgumentProof

/-- Go `ArithmeticCircuitPublic.CommitCircuit`:
`Com = v[0]·G + s·HVec[0] + ⟨v[1:], HVec[9:]⟩`. -/
def ArithmeticCircuitPublic.CommitCircuit (p : ArithmeticCircuitPublic)
    (v : List Scalar) (s : Scalar) : Point :=
  v.getD 0 0 * p.G + s * p.HVec.getD 0 0
    + vectorPointScalarMul (p.HVec.drop 9) (v.drop 1)

/-- `calculateMRL`: `MlnL = Wl[·][:Nm]` (`Nl × Nm`). -/
def MlnL (p : ArithmeticCircuitPublic) : List (List Scalar) :=
  (List.range p.Nl).map (fun i => (p.Wl.getD i []).take p.Nm)

/-- `calculateMRL`: `MmnL = Wm[·][:Nm]` (`Nm × Nm`). -/
def MmnL (p : ArithmeticCircuitPublic) : List (List Scalar) :=
  (List.range p.Nm).map (fun i => (p.Wm.getD i []).take p.Nm)

/-- `calculateMRL`: `MlnR = Wl[·][Nm:2Nm]` (`Nl × Nm`). -/
def MlnR (p : ArithmeticCircuitPublic) : List (List Scalar) :=
  (List.range p.Nl).map (fun i => ((p.Wl.getD i []).drop p.Nm).take p.Nm)

/-- `calculateMRL`: `MmnR = Wm[·][Nm:2Nm]` (`Nm × Nm`). -/
def MmnR (p : ArithmeticCircuitPublic) : List (List Scalar) :=
  (List.range p.Nm).map (fun i => ((p.Wm.getD i []).drop p.Nm).take p.Nm)

/-- `calculateMO`: `WlO = Wl[·][2Nm:]` (`Nl × No`). -/
def WlO (p : ArithmeticCircuitPublic) : List (List Scalar) :=
  (List.range p.Nl).map (fun i => (p.Wl.getD i []).drop (p.Nm * 2))

/-- `calculateMO`: `WmO = Wm[·][2Nm:]` (`Nm × No`). -/
def WmO (p : ArithmeticCircuitPublic) : List (List Scalar) :=
  (List.range p.Nm).map (fun i => (p.Wm.getD i []).drop (p.Nm * 2))

/-- `calculateMO`: entry `(i, j)` of an `M` matrix built by scattering the
columns of `W` through one slot of the partition function. -/
def partScatter (p : ArithmeticCircuitPublic) (W : List (List Scalar))
    (ty : PartitionType) (rows cols : ℕ) : List (List Scalar) :=
  (List.range rows).map (fun i =>
    (List.range cols).map (fun j =>
      match p.F ty j with
      | some j2 => (W.getD i []).getD j2 0
      | none => 0))

/-- `calculateMO`: `MlnO` (`Nl × Nm`, through `F(NO, ·)`). -/
def MlnO (p : ArithmeticCircuitPublic) : List (List Scalar) :=
  partScatter p (WlO p) PartitionType.NO p.Nl p.Nm

/-- `calculateMO`: `MmnO` (`Nm × Nm`, through `F(NO, ·)`). -/
def MmnO (p : ArithmeticCircuitPublic) : List (List Scalar) :=
  partScatter p (WmO p) PartitionType.NO p.Nm p.Nm

/-- `calculateMO`: `MllL` (`Nl × Nv`, through `F(LL, ·)`). -/
def MllL (p : ArithmeticCircuitPublic) : List (List Scalar) :=
  partScatter p (WlO p) PartitionType.LL p.Nl p.Nv

/-- `calculateMO`: `MmlL` (`Nm × Nv`, through `F(LL, ·)`). -/
def MmlL (p : ArithmeticCircuitPublic) : List (List Scalar) :=
  partScatter p (WmO p) PartitionType.LL p.Nm p.Nv

/-- `calculateMO`: `MllR` (`Nl × Nv`, through `F(LR, ·)`). -/
def MllR (p : ArithmeticCircuitPublic) : List (List Scalar) :=
  partScatter p (WlO p) PartitionType.LR p.Nl p.Nv

/-- `calculateMO`: `MmlR` (`Nm × Nv`, through `F(LR, ·)`). -/
def MmlR (p : ArithmeticCircuitPublic) : List (List Scalar) :=
  partScatter p (WmO p) PartitionType.LR p.Nm p.Nv

/-- `calculateMO`: `MllO` (`Nl × Nv`, through `F(LO, ·)`). -/
def MllO (p : ArithmeticCircuitPublic) : List (List Scalar) :=
  partScatter p (WlO p) PartitionType.LO p.Nl p.Nv

/-- `calculateMO`: `MmlO` (`Nm × Nv`, through `F(LO, ·)`). -/
def MmlO (p : ArithmeticCircuitPublic) : List (List Scalar) :=
  partScatter p (WmO p) PartitionType.LO p.Nm p.Nv

/-- The scattering of `wo` into an `n`-slot vector (`no` in `commitOL`):
`no[j] = wo[F(NO, j)]` when defined, else `0`; length `Nm`. -/
def scatterNO (p : ArithmeticCircuitPublic) (wo : List Scalar) : List Scalar :=
  (List.range p.Nm).map (fun j =>
    match p.F PartitionType.NO j with
    | some i => wo.getD i 0
    | none => 0)

/-- The scattering of `wo` into an `l`-slot vector (`lo`, `ll`, `lr` in
`commitOL`/`commitR`): length `Nv`. -/
def scatterL (p : ArithmeticCircuitPublic) (ty : PartitionType)
    (wo : List Scalar) : List Scalar :=
  (List.range p.Nv).map (fun j =>
    match p.F ty j with
    | some i => wo.getD i 0
    | none => 0)

/-- The 9-entry blinding vector `ro` of `commitOL`: random entries except
`ro[4] = ro[8] = 0` (the random draws are the entries of `rnd`). -/
def roVec (rnd : List Scalar) : List Scalar :=
  [rnd.getD 0 0, rnd.getD 1 0, rnd.getD 2 0, rnd.getD 3 0, 0,
    rnd.getD 4 0, rnd.getD 5 0, rnd.getD 6 0, 0]

/-- The 9-entry blinding vector `rl` of `commitOL`: random entries except
`rl[3] = rl[7] = rl[8] = 0`. -/
def rlVec (rnd : List Scalar) : List Scalar :=
  [rnd.getD 0 0, rnd.getD 1 0, rnd.getD 2 0, 0, rnd.getD 3 0,
    rnd.getD 4 0, rnd.getD 5 0, 0, 0]

/-- The 9-entry blinding vector `rr` of `commitR`: random entries except
`rr[2] = rr[6] = rr[7] = rr[8] = 0`. -/
def rrVec (rnd : List Scalar) : List Scalar :=
  [rnd.getD 0 0, rnd.getD 1 0, 0, rnd.getD 2 0, rnd.getD 3 0,
    rnd.getD 4 0, 0, 0, 0]

/-- The commitment form shared by `commitOL` and `commitR`:
`⟨r ∥ l, HVec⟩ + ⟨n, GVec⟩`. -/
def circuitCommit (p : ArithmeticCircuitPublic) (r l n : List Scalar) : Point :=
  vectorPointScalarMul p.HVec (r ++ l) + vectorPointScalarMul p.GVec n

/-- `lcomb(i)` of prover and verifier:
`Fl·λ^(Nv·i) + Fm·μ^(Nv·i+1)`. -/
def lcomb (p : ArithmeticCircuitPublic) (lambda mu : Scalar) (i : ℕ) : Scalar :=
  bbool p.Fl * pow lambda (p.Nv * i) + bbool p.Fm * pow mu (p.Nv * i + 1)

/-- The `lambdaVec` of prover and verifier (length `Nl`). -/
def lambdaVec (p : ArithmeticCircuitPublic) (lambda mu : Scalar) : List Scalar :=
  vectorSub (e lambda p.Nl)
    (vectorMulOnScalar
      (vectorAdd
        (vectorTensorMul (vectorMulOnScalar (e lambda p.Nv) mu) (e (pow mu p.Nv) p.K))
        (vectorTensorMul (e mu p.Nv) (e (pow lambda p.Nv) p.K)))
      (bbool (p.Fl && p.Fm)))

/-- The `muVec` of prover and verifier: `μ·e(μ, Nm)`. -/
def muVec (p : ArithmeticCircuitPublic) (mu : Scalar) : List Scalar :=
  vectorMulOnScalar (e mu p.Nm) mu

/-- `cnL = (λ⃗·MlnL − μ⃗·MmnL)·diagInv(μ, Nm)`. -/
def cnLv (p : ArithmeticCircuitPublic) (lambda mu : Scalar) : List Scalar :=
  vectorMulOnMatrix (vectorSub (vectorMulOnMatrix (lambdaVec p lambda mu) (MlnL p))
    (vectorMulOnMatrix (muVec p mu) (MmnL p))) (diagInv mu p.Nm)

/-- `cnR = (λ⃗·MlnR − μ⃗·MmnR)·diagInv(μ, Nm)`. -/
def cnRv (p : ArithmeticCircuitPublic) (lambda mu : Scalar) : List Scalar :=
  vectorMulOnMatrix (vectorSub (vectorMulOnMatrix (lambdaVec p lambda mu) (MlnR p))
    (vectorMulOnMatrix (muVec p mu) (MmnR p))) (diagInv mu p.Nm)

/-- `cnO = (λ⃗·MlnO − μ⃗·MmnO)·diagInv(μ, Nm)`. -/
def cnOv (p : ArithmeticCircuitPublic) (lambda mu : Scalar) : List Scalar :=
  vectorMulOnMatrix (vectorSub (vectorMulOnMatrix (lambdaVec p lambda mu) (MlnO p))
    (vectorMulOnMatrix (muVec p mu) (MmnO p))) (diagInv mu p.Nm)

/-- `clL = λ⃗·MllL − μ⃗·MmlL`. -/
def clLv (p : ArithmeticCircuitPublic) (lambda mu : Scalar) : List Scalar :=
  vectorSub (vectorMulOnMatrix (lambdaVec p lambda mu) (MllL p))
    (vectorMulOnMatrix (muVec p mu) (MmlL p))

/-- `clR = λ⃗·MllR − μ⃗·MmlR`. -/
def clRv (p : ArithmeticCircuitPublic) (lambda mu : Scalar) : List Scalar :=
  vectorSub (vectorMulOnMatrix (lambdaVec p lambda mu) (MllR p))
    (vectorMulOnMatrix (muVec p mu) (MmlR p))

/-- `clO = λ⃗·MllO − μ⃗·MmlO`. -/
def clOv (p : ArithmeticCircuitPublic) (lambda mu : Scalar) : List Scalar :=
  vectorSub (vectorMulOnMatrix (lambdaVec p lambda mu) (MllO p))
    (vectorMulOnMatrix (muVec p mu) (MmlO p))

/-- `cl0 = Fl·e(λ, Nv)[1:] − Fm·μ·e(μ, Nv)[1:]`. -/
def cl0v (p : ArithmeticCircuitPublic) (lambda mu : Scalar) : List Scalar :=
  vectorSub (vectorMulOnScalar ((e lambda p.Nv).drop 1) (bbool p.Fl))
    (vectorMulOnScalar (vectorMulOnScalar ((e mu p.Nv).drop 1) mu) (bbool p.Fm))

/-- The 9-entry `cr_T` vector of prover and verifier. -/
def crT (beta t : Scalar) : List Scalar :=
  [1, beta * inv t, beta * t, beta * (t * t), beta * (t * t * t),
    beta * (t * (t * t * t)), beta * (t * t * (t * t * t)),
    beta * (t * t * t * (t * t * t)), beta * (t * t * t * t * (t * t * t))]

/-- The `cl_T` vector of prover and verifier:
`2·((t³/δ)·clO − t²·clL + t·clR) − cl0`. -/
def clT (p : ArithmeticCircuitPublic) (lambda mu delta t : Scalar) : List Scalar :=
  vectorSub
    (vectorMulOnScalar
      (vectorAdd
        (vectorSub (vectorMulOnScalar (clOv p lambda mu) (t * t * t * inv delta))
          (vectorMulOnScalar (clLv p lambda mu) (t * t)))
        (vectorMulOnScalar (clRv p lambda mu) t))
      2)
    (cl0v p lambda mu)

/-- The `pnT` vector of prover and verifier:
`(t³/δ)·cnO − t²·cnL + t·cnR`. -/
def pnTv (p : ArithmeticCircuitPublic) (lambda mu delta t : Scalar) : List Scalar :=
  vectorAdd
    (vectorSub (vectorMulOnScalar (cnOv p lambda mu) (inv delta * (t * t * t)))
      (vectorMulOnScalar (cnLv p lambda mu) (t * t)))
    (vectorMulOnScalar (cnRv p lambda mu) t)

/-- The `psT` scalar of prover and verifier:
`⟨pnT,pnT⟩_μ + 2·⟨λ⃗,Al⟩·t³ − 2·⟨μ⃗,Am⟩·t³`. -/
def psTv (p : ArithmeticCircuitPublic) (lambda mu delta t : Scalar) : Scalar :=
  weightVectorMul (pnTv p lambda mu delta t) (pnTv p lambda mu delta t) mu
    + 2 * (vectorMul (lambdaVec p lambda mu) p.Al * (t * t * t))
    - 2 * (vectorMul (muVec p mu) p.Am * (t * t * t))

/-- The `PT` point of the verifier: `psT·G + ⟨pnT, GVec⟩`. -/
def PTv (p : ArithmeticCircuitPublic) (lambda mu delta t : Scalar) : Point :=
  psTv p lambda mu delta t * p.G
    + vectorPointScalarMul p.GVec (pnTv p lambda mu delta t)

/-- Go `VerifyCircuit`: absorb `CL, CR, CO`, draw `ρ, λ, β, δ`, absorb `CS`,
draw `t`, reconstruct `C_T` from the public commitments, and hand over to
`VerifyWNLA` with the padded bases and `c_T`. -/
def VerifyCircuit (chal : List FSItem → Scalar) (p : ArithmeticCircuitPublic)
    (V : List Point) (tr : List FSItem) (proof : ArithmeticCircuitProof) :
    Except WnlaError Unit × List FSItem :=
  let tr3 := fsAddPoint (fsAddPoint (fsAddPoint tr proof.CL) proof.CR) proof.CO
  let cro := fsGetChallenge chal tr3
  let ro := cro.1
  let clam := fsGetChallenge chal cro.2
  let lambda := clam.1
  let cbeta := fsGetChallenge chal clam.2
  let beta := cbeta.1
  let cdelta := fsGetChallenge chal cbeta.2
  let delta := cdelta.1
  let mu := ro * ro
  let V2 := 2 * ((List.range p.K).map (fun i => lcomb p lambda mu i * V.getD i 0)).sum
  let tr4 := fsAddPoint cdelta.2 proof.CS
  let ct := fsGetChallenge chal tr4
  let t := ct.1
  let cT := crT beta t ++ clT p lambda mu delta t
  let CT := PTv p lambda mu delta t + inv t * proof.CS + minus delta * proof.CO
    + t * proof.CL + minus (t * t) * proof.CR + (t * t * t) * V2
  VerifyWNLA chal
    { G := p.G, GVec := p.GVec ++ p.GVec_, HVec := p.HVec ++ p.HVec_
      C := cT, Ro := ro, Mu := mu }
    proof.WNLA CT ct.2

/-- Everything `innerArithmeticCircuitProve` computes, including (for the
padding analysis) the final `lT`, `cT`, `nT` vectors passed to `ProveWNLA`
after the zero-extension loops. -/
structure CircuitProverRun where
  proof : ArithmeticCircuitProof
  tr : List FSItem
  lT : List Scalar
  cT : List Scalar
  nT : List Scalar

/-- Go `innerArithmeticCircuitProve`.  The blinding draws `ls` and `ns` are
passed in as `lsIn`/`nsIn` (truncated or zero-padded to lengths `Nv`/`Nm`,
matching the sampled slices of the source); `r = [rl, rr, ro]`,
`n = [nl, nr, no]`, `l = [ll, lr, lo]`, `C = [Cl, Cr, Co]` as in the source.
The Laurent-coefficient map `f_` is built by the literal `add`/`sub`
accumulation steps of the source on a map whose absent entries read as `nil`
(see `applyUpdates`); zero-extension of `lT`/`cT` runs to `|HVec| + |HVec_|`
and of `nT` to `|GVec_| + |GVec_|` (sic — `GVec_` twice, as in the source). -/
def innerArithmeticCircuitProve (chal : List FSItem → Scalar)
    (p : ArithmeticCircuitPublic) (tr : List FSItem)
    (priv : ArithmeticCircuitPrivate) (r n l : List (List Scalar))
    (C : List Point) (lsIn nsIn : List Scalar) : CircuitProverRun :=
  let rl := r.getD 0 []
  let rr := r.getD 1 []
  let ro := r.getD 2 []
  let ll := l.getD 0 []
  let lr := l.getD 1 []
  let lo := l.getD 2 []
  let nl := n.getD 0 []
  let nr := n.getD 1 []
  let no := n.getD 2 []
  let Cl := C.getD 0 0
  let Cr := C.getD 1 0
  let Co := C.getD 2 0
  let tr3 := fsAddPoint (fsAddPoint (fsAddPoint tr Cl) Cr) Co
  let crho := fsGetChallenge chal tr3
  let rho := crho.1
  let clam := fsGetChallenge chal crho.2
  let lambda := clam.1
  let cbeta := fsGetChallenge chal clam.2
  let beta := cbeta.1
  let cdelta := fsGetChallenge chal cbeta.2
  let delta := cdelta.1
  let mu := rho * rho
  let ls := (List.range p.Nv).map (fun i => lsIn.getD i 0)
  let ns := (List.range p.Nm).map (fun i => nsIn.getD i 0)
  let v2 := 2 * ((List.range p.K).map (fun i =>
    (priv.V.getD i []).getD 0 0 * lcomb p lambda mu i)).sum
  let rv0 := 2 * ((List.range p.K).map (fun i =>
    priv.Sv.getD i 0 * lcomb p lambda mu i)).sum
  let rv := rv0 :: List.replicate 8 0
  let v1 := vectorMulOnScalar
    ((List.range p.K).foldl (fun acc i =>
      vectorAdd acc (vectorMulOnScalar ((priv.V.getD i []).drop 1)
        (lcomb p lambda mu i))) (zeroVector 1)) 2
  let cl0 := cl0v p lambda mu
  let clL := clLv p lambda mu
  let clR := clRv p lambda mu
  let clO := clOv p lambda mu
  let cnL := cnLv p lambda mu
  let cnR := cnRv p lambda mu
  let cnO := cnOv p lambda mu
  let f := fun k => zeroIfNil (applyUpdates (fun _ => none)
    [((-2 : ℤ), true, weightVectorMul ns ns mu),
     (-1, false, vectorMul cl0 ls),
     (-1, false, 2 * delta * weightVectorMul ns no mu),
     (0, true, 2 * vectorMul clR ls),
     (0, true, delta * vectorMul cl0 lo),
     (0, true, weightVectorMul ns (vectorAdd nl cnR) mu * 2),
     (0, true, delta * delta * weightVectorMul no no mu),
     (1, false, 2 * vectorMul clL ls),
     (1, false, 2 * (delta * vectorMul clR lo)),
     (1, false, vectorMul cl0 ll),
     (1, false, weightVectorMul ns (vectorAdd nr cnL) mu * 2),
     (1, false, weightVectorMul no (vectorAdd nl cnR) mu * (2 * delta)),
     (2, false, weightVectorMul cnR cnR mu),
     (2, true, 2 * (inv delta * vectorMul clO ls)),
     (2, true, 2 * (delta * vectorMul clL lo)),
     (2, true, 2 * vectorMul clR ll),
     (2, true, vectorMul cl0 lr),
     (2, true, 2 * inv delta * weightVectorMul ns cnO mu),
     (2, true, 2 * delta * weightVectorMul no (vectorAdd nr cnL) mu),
     (2, true, weightVectorMul (vectorAdd nl cnR) (vectorAdd nl cnR) mu),
     (4, false, 2 * inv delta * weightVectorMul cnO cnR mu),
     (4, false, weightVectorMul cnL cnL mu),
     (4, true, 2 * inv delta * vectorMul clO ll),
     (4, true, 2 * vectorMul clL lr),
     (4, true, 2 * vectorMul clR v1),
     (4, true, 2 * inv delta * weightVectorMul (vectorAdd nl cnR) cnO mu),
     (4, true, weightVectorMul (vectorAdd nr cnL) (vectorAdd nr cnL) mu),
     (5, true, 2 * inv delta * weightVectorMul cnO cnL mu),
     (5, false, 2 * inv delta * vectorMul clO lr),
     (5, false, 2 * vectorMul clL v1),
     (5, false, 2 * inv delta * weightVectorMul (vectorAdd nr cnL) cnO mu),
     (6, true, 2 * inv delta * vectorMul clO v1),
     (3, false, 2 * (vectorMul (lambdaVec p lambda mu) p.Al
        - vectorMul (muVec p mu) p.Am)),
     (3, true, 2 * weightVectorMul cnL cnR mu),
     (3, false, v2),
     (3, false, 2 * vectorMul clO lo),
     (3, false, 2 * vectorMul clL ll),
     (3, false, 2 * vectorMul clR lr),
     (3, false, vectorMul cl0 v1),
     (3, false, weightVectorMul no cnO mu * 2),
     (3, false, weightVectorMul (vectorAdd nl cnR) (vectorAdd nr cnL) mu * 2)]
    k)
  let binv := inv beta
  let rs := [f (-1) + beta * (delta * ro.getD 1 0),
    f (-2) * binv,
    (f 0 + delta * ro.getD 0 0) * binv - rl.getD 1 0,
    (f 1 - rl.getD 0 0) * binv + (rr.getD 1 0 + delta * ro.getD 2 0),
    (f 2 + rr.getD 0 0) * binv + (delta * ro.getD 3 0 - rl.getD 2 0),
    minus (rv0 * binv),
    f 4 * binv + (delta * ro.getD 5 0 + (rr.getD 3 0 - rl.getD 4 0)),
    f 5 * binv + (rr.getD 4 0 + delta * ro.getD 6 0 - rl.getD 5 0),
    f 6 * binv + (delta * ro.getD 7 0 - rl.getD 6 0 + rr.getD 5 0)]
  let Cs := vectorPointScalarMul p.HVec (rs ++ ls) + vectorPointScalarMul p.GVec ns
  let tr4 := fsAddPoint cdelta.2 Cs
  let ctc := fsGetChallenge chal tr4
  let t := ctc.1
  let tinv := inv t
  let lT := vectorAdd
    (vectorSub
      (vectorAdd
        (vectorSub (vectorMulOnScalar (rs ++ ls) tinv)
          (vectorMulOnScalar (ro ++ lo) delta))
        (vectorMulOnScalar (rl ++ ll) t))
      (vectorMulOnScalar (rr ++ lr) (t * t)))
    (vectorMulOnScalar (rv ++ v1) (t * t * t))
  let pnT := pnTv p lambda mu delta t
  let psT := psTv p lambda mu delta t
  let nT := vectorAdd pnT
    (vectorSub
      (vectorAdd
        (vectorSub (vectorMulOnScalar ns tinv) (vectorMulOnScalar no delta))
        (vectorMulOnScalar nl t))
      (vectorMulOnScalar nr (t * t)))
  let cT := crT beta t ++ clT p lambda mu delta t
  let vT := psT + v2 * (t * t * t)
  let CT := vT * p.G + vectorPointScalarMul p.HVec lT
    + vectorPointScalarMul p.GVec nT
  let padCount := (p.HVec.length + p.HVec_.length) - lT.length
  let lTp := lT ++ List.replicate padCount 0
  let cTp := cT ++ List.replicate padCount 0
  let nTp := nT ++ List.replicate ((p.GVec_.length + p.GVec_.length) - nT.length) 0
  let res := ProveWNLA chal
    { G := p.G, GVec := p.GVec ++ p.GVec_, HVec := p.HVec ++ p.HVec_
      C := cTp, Ro := rho, Mu := mu }
    CT ctc.2 lTp nTp
  { proof := { CL := Cl, CR := Cr, CO := Co, CS := Cs, WNLA := res.1 }
    tr := res.2, lT := lTp, cT := cTp, nT := nTp }

/-- Go `ProveCircuit`: build the `commitOL`/`commitR` commitments (blinding
draws passed in as `roIn`, `rlIn`, `rrIn`) and run the inner prover. -/
def ProveCircuit (chal : List FSItem → Scalar) (p : ArithmeticCircuitPublic)
    (tr : List FSItem) (priv : ArithmeticCircuitPrivate)
    (roIn rlIn rrIn lsIn nsIn : List Scalar) : CircuitProverRun :=
  let ro := roVec roIn
  let rl := rlVec rlIn
  let nl := priv.Wl
  let no := scatterNO p priv.Wo
  let lo := scatterL p PartitionType.LO priv.Wo
  let ll := scatterL p PartitionType.LL priv.Wo
  let Co := circuitCommit p ro lo no
  let Cl := circuitCommit p rl ll nl
  let rr := rrVec rrIn
  let nr := priv.Wr
  let lr := scatterL p PartitionType.LR priv.Wo
  let Cr := circuitCommit p rr lr nr
  innerArithmeticCircuitProve chal p tr priv [rl, rr, ro] [nl, nr, no]
    [ll, lr, lo] [Cl, Cr, Co] lsIn nsIn

/-- The partition function of scenario S3 (and of `TestArithmeticCircuit`):
route everything through `LL`. -/
def s3F : PartitionType → ℕ → Option ℕ := fun ty i =>
  if ty = PartitionType.LL then some i else none

/-- Concrete public parameters of scenario S3 (`x + y = r`, `x·y = z` with
`r = 8`, `z = 15`): `Nm = 1`, `No = 2`, `Nv = 2`, `K = 1`, `Nl = 2`, `Nw = 4`,
`Wm = [[0,0,1,0]]`, `Wl = [[0,1,0,0],[1,0,0,−1]]`, `Am = [0]`, `Al = [−8,0]`,
`Fl = true`, `Fm = false`; the bases are concrete points with the required
lengths (`|HVec| = Nv + 9 = 11` padded to 16, `|GVec| = Nm = 1 = 2⁰`). -/
def s3Pub : ArithmeticCircuitPublic :=
  { Nm := 1, Nl := 2, Nv := 2, Nw := 4, No := 2, K := 1
    G := 2
    GVec := [61]
    HVec := [3, 5, 7, 11, 13, 17, 19, 23, 29, 31, 37]
    Wm := [[0, 0, 1, 0]]
    Wl := [[0, 1, 0, 0], [1, 0, 0, -1]]
    Am := [0]
    Al := [-8, 0]
    Fl := true
    Fm := false
    F := s3F
    GVec_ := []
    HVec_ := [41, 43, 47, 53, 59] }

/-- The S3 witness: `x = 3`, `y = 5`; `wL = [3]`, `wR = [5]`, `wO = [15, 8]`,
`V = [[3, 5]]`. -/
def s3Priv : ArithmeticCircuitPrivate :=
  { V := [[3, 5]], Sv := [4], Wl := [3], Wr := [5], Wo := [15, 8] }

/-- The composite witness `w = wL ∥ wR ∥ wO` of S3. -/
def s3w : List Scalar := [3, 5, 15, 8]

/-- The committed-value contributions `wv = V[0]` of S3. -/
def s3wv : List Scalar := [3, 5]

/-- Public parameters with `Nm = 3` (not a power of two): `No = 0`, `Nv = 1`,
`K = 1`, `Nl = 1`, `Nw = 6`; `|GVec| = 3` padded by `|GVec_| = 1` to `4 = 2²`,
`|HVec| = 10` padded by `|HVec_| = 6` to `16 = 2⁴`. -/
def c8Pub : ArithmeticCircuitPublic :=
  { Nm := 3, Nl := 1, Nv := 1, Nw := 6, No := 0, K := 1
    G := 2
    GVec := [61, 67, 71]
    HVec := [3, 5, 7, 11, 13, 17, 19, 23, 29, 31]
    Wm := [[1, 0, 0, 0, 0, 0], [0, 1, 0, 0, 0, 0], [0, 0, 1, 0, 0, 0]]
    Wl := [[1, 1, 1, 1, 1, 1]]
    Am := [0, 0, 0]
    Al := [0]
    Fl := true
    Fm := false
    F := fun _ _ => none
    GVec_ := [73]
    HVec_ := [37, 41, 43, 47, 53, 59] }

/-- A private witness with the dimensions of `c8Pub`. -/
def c8Priv : ArithmeticCircuitPrivate :=
  { V := [[9]], Sv := [4], Wl := [1, 2, 3], Wr := [4, 5, 6], Wo := [] }

/-! # Theorems -/

/-! Basic lemmas about the vector helpers: lengths, entry (`getD`) values, and
`Finset.sum` characterisations of the various inner products. -/

theorem length_padZeros (a : List Scalar) (n : ℕ) :
    (padZeros a n).length = max a.length n := by
  simp [padZeros]
  omega

theorem getD_padZeros (a : List Scalar) (n i : ℕ) :
    (padZeros a n).getD i 0 = a.getD i 0 := by
  rcases lt_or_le i a.length with h | h
  · rw [padZeros, List.getD_append _ _ _ _ h]
  · rw [List.getD_eq_default _ _ h, padZeros, List.getD_append_right _ _ _ _ h]
    simp

theorem getD_zipWith (f : Scalar → Scalar → Scalar) (h0 : f 0 0 = 0)
    (u v : List Scalar) (h : u.length = v.length) (i : ℕ) :
    (List.zipWith f u v).getD i 0 = f (u.getD i 0) (v.getD i 0) := by
  induction u generalizing v i with
  | nil =>
    rcases v with _ | ⟨y, ys⟩
    · simpa using h0.symm
    · simp at h
  | cons x xs ih =>
    rcases v with _ | ⟨y, ys⟩
    · simp at h
    · rcases i with _ | i
      · simp
      · simpa using ih ys (by simpa using h) i

theorem length_vectorAdd (a b : List Scalar) :
    (vectorAdd a b).length = max a.length b.length := by
  simp [vectorAdd, length_padZeros]

theorem getD_vectorAdd (a b : List Scalar) (i : ℕ) :
    (vectorAdd a b).getD i 0 = a.getD i 0 + b.getD i 0 := by
  rw [vectorAdd, getD_zipWith _ (by simp) _ _ (by simp [length_padZeros]),
    getD_padZeros, getD_padZeros]

theorem length_vectorSub (a b : List Scalar) :
    (vectorSub a b).length = max a.length b.length := by
  simp [vectorSub, length_padZeros]

theorem getD_vectorSub (a b : List Scalar) (i : ℕ) :
    (vectorSub a b).getD i 0 = a.getD i 0 - b.getD i 0 := by
  rw [vectorSub, getD_zipWith _ (by simp) _ _ (by simp [length_padZeros]),
    getD_padZeros, getD_padZeros]

theorem length_vectorMulOnScalar (a : List Scalar) (c : Scalar) :
    (vectorMulOnScalar a c).length = a.length := by
  simp [vectorMulOnScalar]

theorem getD_vectorMulOnScalar (a : List Scalar) (c : Scalar) (i : ℕ) :
    (vectorMulOnScalar a c).getD i 0 = a.getD i 0 * c := by
  rcases lt_or_le i a.length with h | h
  · simp [vectorMulOnScalar, List.getD_eq_getElem?_getD, List.getElem?_map,
      List.getElem?_eq_getElem h]
  · rw [List.getD_eq_default _ _ h, List.getD_eq_default, zero_mul]
    simpa [vectorMulOnScalar] using h

theorem length_vectorPointsAdd (a b : List Point) :
    (vectorPointsAdd a b).length = max a.length b.length := by
  simp [vectorPointsAdd, length_padZeros]

theorem getD_vectorPointsAdd (a b : List Point) (i : ℕ) :
    (vectorPointsAdd a b).getD i 0 = a.getD i 0 + b.getD i 0 := by
  rw [vectorPointsAdd, getD_zipWith _ (by simp) _ _ (by simp [length_padZeros]),
    getD_padZeros, getD_padZeros]

theorem length_vectorPointMulOnScalar (g : List Point) (a : Scalar) :
    (vectorPointMulOnScalar g a).length = g.length := by
  simp [vectorPointMulOnScalar]

theorem getD_vectorPointMulOnScalar (g : List Point) (a : Scalar) (i : ℕ) :
    (vectorPointMulOnScalar g a).getD i 0 = a * g.getD i 0 := by
  rcases lt_or_le i g.length with h | h
  · simp [vectorPointMulOnScalar, List.getD_eq_getElem?_getD, List.getElem?_map,
      List.getElem?_eq_getElem h]
  · rw [List.getD_eq_default _ _ h, List.getD_eq_default, mul_zero]
    simpa [vectorPointMulOnScalar] using h

theorem length_e (v : Scalar) (a : ℕ) : (e v a).length = a := by
  simp [e]

theorem getD_e (v : Scalar) (a i : ℕ) :
    (e v a).getD i 0 = if i < a then v ^ i else 0 := by
  rcases lt_or_le i a with h | h
  · simp [e, List.getD_eq_getElem?_getD, List.getElem?_map,
      List.getElem?_range h, h]
  · rw [List.getD_eq_default _ _ (by simpa [length_e] using h), if_neg (by omega)]

theorem sum_map_range (g : ℕ → Scalar) (n : ℕ) :
    ((List.range n).map g).sum = ∑ i ∈ Finset.range n, g i := by
  induction n with
  | zero => simp
  | succ n ih => simp [List.range_succ, Finset.sum_range_succ, ih]

/-- Extending a `Finset.range` sum past the point where all terms vanish. -/
theorem sum_range_extend (g : ℕ → Scalar) (m n : ℕ) (h : m ≤ n)
    (hz : ∀ i, m ≤ i → g i = 0) :
    ∑ i ∈ Finset.range m, g i = ∑ i ∈ Finset.range n, g i := by
  apply Finset.sum_subset (Finset.range_subset.mpr h)
  intro i _ hi
  exact hz i (by simpa using hi)

theorem vectorMul_eq (a b : List Scalar) (n : ℕ) (h : max a.length b.length ≤ n) :
    vectorMul a b = ∑ i ∈ Finset.range n, a.getD i 0 * b.getD i 0 := by
  rw [vectorMul]
  have hlen : (padZeros a (max a.length b.length)).length
      = (padZeros b (max a.length b.length)).length := by simp [length_padZeros]
  have hz : List.zipWith (· * ·) (padZeros a (max a.length b.length))
      (padZeros b (max a.length b.length))
      = (List.range (max a.length b.length)).map (fun i => a.getD i 0 * b.getD i 0) := by
    refine List.ext_getElem ?_ ?_
    · simp [List.length_zipWith, length_padZeros]
    · intro i h1 h2
      have hi : i < max a.length b.length := by
        simpa [List.length_zipWith, length_padZeros] using h1
      have := getD_zipWith (· * ·) (by simp) _ _ hlen i
      rw [List.getD_eq_getElem _ _ h1, getD_padZeros, getD_padZeros] at this
      simp [this, List.getElem_map, List.getElem_range]
  rw [hz, sum_map_range]
  refine sum_range_extend _ _ _ h ?_
  intro i hi
  rw [List.getD_eq_default _ _ (le_trans (le_max_left _ _) hi), zero_mul]

theorem weightAux_eq (mu : Scalar) (u v : List Scalar) (h : u.length = v.length)
    (exp : Scalar) :
    weightAux mu u v exp = ∑ i ∈ Finset.range u.length,
      u.getD i 0 * v.getD i 0 * (exp * mu ^ i) := by
  induction u generalizing v exp with
  | nil => simp [weightAux]
  | cons x xs ih =>
    rcases v with _ | ⟨y, ys⟩
    · simp at h
    · rw [weightAux, ih ys (by simpa using h) (exp * mu)]
      rw [List.length_cons, Finset.sum_range_succ']
      have hcg : ∀ i ∈ Finset.range xs.length,
          (x :: xs).getD (i + 1) 0 * (y :: ys).getD (i + 1) 0 * (exp * mu ^ (i + 1))
          = xs.getD i 0 * ys.getD i 0 * (exp * mu * mu ^ i) := by
        intro i _
        rw [List.getD_cons_succ, List.getD_cons_succ, pow_succ]
        ring
      rw [Finset.sum_congr rfl hcg]
      rw [List.getD_cons_zero, List.getD_cons_zero]
      simp
      ring

theorem weightVectorMul_eq (a b : List Scalar) (mu : Scalar) (n : ℕ)
    (h : max a.length b.length ≤ n) :
    weightVectorMul a b mu
      = ∑ i ∈ Finset.range n, a.getD i 0 * b.getD i 0 * mu ^ (i + 1) := by
  rw [weightVectorMul, weightAux_eq mu (padZeros a (max a.length b.length))
    (padZeros b (max a.length b.length)) (by simp [length_padZeros]) mu]
  have hl : (padZeros a (max a.length b.length)).length = max a.length b.length := by
    simp [length_padZeros]
  rw [hl]
  have : ∀ i ∈ Finset.range (max a.length b.length),
      (padZeros a (max a.length b.length)).getD i 0
        * (padZeros b (max a.length b.length)).getD i 0 * (mu * mu ^ i)
      = a.getD i 0 * b.getD i 0 * mu ^ (i + 1) := by
    intro i _
    rw [getD_padZeros, getD_padZeros, pow_succ]
    ring
  rw [Finset.sum_congr rfl this]
  refine sum_range_extend _ _ _ h ?_
  intro i hi
  rw [List.getD_eq_default _ _ (le_trans (le_max_left _ _) hi), zero_mul, zero_mul]

theorem vectorPointScalarMul_eq (g : List Point) (a : List Scalar) (n : ℕ)
    (h : g.length ≤ n) :
    vectorPointScalarMul g a = ∑ i ∈ Finset.range n, a.getD i 0 * g.getD i 0 := by
  rw [vectorPointScalarMul, sum_map_range]
  refine sum_range_extend _ _ _ h ?_
  intro i hi
  rw [List.getD_eq_default g _ hi, mul_zero]

theorem natBytesBE_one : natBytesBE 1 = [1] := by
  rw [natBytesBE, Nat.digits_def' (by norm_num : (1:ℕ) < 256) (by norm_num : 0 < 1)]
  norm_num

theorem bint_one_val : (bint 1).val = 1 := by
  have h : bint 1 = (1 : Scalar) := by rw [bint]; norm_num
  rw [h]
  exact ZMod.val_one Q

/-- C6.  On a fresh `KeccakFS`, after `AddNumber(1)` and `AddNumber(2)`, the
first `GetChallenge()` returns `Keccak256(be32(1) ∥ be32(2) ∥ be32(1)) mod q`:
the hashed byte stream is exactly the two absorbed scalars followed by the
32-byte big-endian encoding of the counter value `1` (incremented by this
first challenge), and `be32(1)` is the 32-byte left-padded big-endian
encoding `0…0 ∥ 1`. -/
theorem c6_keccakfs_challenge (keccak : List ℕ → ℕ) :
    (((NewKeccakFS.AddNumber (bint 1)).AddNumber (bint 2)).GetChallenge keccak).1
      = ((keccak (scalarTo32Byte (bint 1) ++ scalarTo32Byte (bint 2)
          ++ scalarTo32Byte (bint 1)) : ℕ) : Scalar)
    ∧ scalarTo32Byte (bint 1) = List.replicate 31 0 ++ [1] := by
  constructor
  · simp [NewKeccakFS, KeccakFS.AddNumber, KeccakFS.GetChallenge, bint]
  · rw [scalarTo32Byte]
    simp [bint_one_val, natBytesBE_one]

theorem applyUpdates_zeroIfNil (updates : List (ℤ × Bool × Scalar)) :
    ∀ (m : ℤ → Option Scalar) (mz : ℤ → Scalar),
      (∀ j, zeroIfNil (m j) = mz j) →
      ∀ k, zeroIfNil (applyUpdates m updates k) = applyUpdatesZ mz updates k := by
  induction updates with
  | nil => intro m mz hm k; exact hm k
  | cons u rest ih =>
    intro m mz hm k
    rw [applyUpdates, applyUpdatesZ]
    refine ih _ _ ?_ k
    intro j
    rcases eq_or_ne j u.1 with h | h
    · subst h
      rcases u.2.1 with _ | _
      · simp [mapUpdate, zeroIfNil, sub, add, Function.update_apply]
        exact hm u.1
      · simp [mapUpdate, zeroIfNil, sub, add, Function.update_apply]
        exact hm u.1
    · simp [mapUpdate, Function.update_apply, h, hm j]

/-- C10.  The scalar helpers are total on `nil` (`none`) arguments: `add` and
`sub` read a `nil` argument as `0`, and `mul` returns `0` when either argument
is `nil` — which equals the product of the `zeroIfNil` readings.
Consequently the prover's Laurent-coefficient accumulation on the map `f_`
(reading absent entries as `nil` before their first assignment) computes
exactly the accumulation on plain scalars initialised to `0`, for every
sequence of `add`/`sub` accumulation steps. -/
theorem c10_nil_as_zero :
    (∀ x y : Option Scalar,
      add x y = zeroIfNil x + zeroIfNil y
        ∧ sub x y = zeroIfNil x - zeroIfNil y
        ∧ mul x y = zeroIfNil x * zeroIfNil y)
    ∧ ∀ (updates : List (ℤ × Bool × Scalar)) (k : ℤ),
        zeroIfNil (applyUpdates (fun _ => none) updates k)
          = applyUpdatesZ (fun _ => 0) updates k := by
  constructor
  · intro x y
    refine ⟨rfl, rfl, ?_⟩
    rcases x with _ | x
    · simp [mul, zeroIfNil]
    · rcases y with _ | y
      · simp [mul, zeroIfNil]
      · simp [mul, zeroIfNil]
  · intro updates k
    exact applyUpdates_zeroIfNil updates _ _ (fun _ => rfl) k

/-- C9.  `weightVectorMul a b μ = Σ aᵢ·bᵢ·μ^(i+1)` over the common (padded)
length, entries beyond a vector's length reading as `0`; at `μ = 1` it
coincides with `vectorMul`. -/
theorem c9_weightVectorMul_spec (a b : List Scalar) (mu : Scalar) :
    (weightVectorMul a b mu
      = ∑ i ∈ Finset.range (max a.length b.length),
          a.getD i 0 * b.getD i 0 * mu ^ (i + 1))
    ∧ weightVectorMul a b 1 = vectorMul a b := by
  constructor
  · exact weightVectorMul_eq a b mu _ le_rfl
  · rw [weightVectorMul_eq a b 1 _ le_rfl, vectorMul_eq a b _ le_rfl]
    exact Finset.sum_congr rfl (fun i _ => by rw [one_pow, mul_one])

theorem length_reduceVector_fst :
    ∀ v : List Scalar, (reduceVector v).1.length = (v.length + 1) / 2
  | [] => by simp [reduceVector]
  | [x] => by simp [reduceVector]
  | x :: y :: rest => by
    have := length_reduceVector_fst rest
    simp [reduceVector, this]
    omega

theorem length_reduceVector_snd :
    ∀ v : List Scalar, (reduceVector v).2.length = v.length / 2
  | [] => by simp [reduceVector]
  | [x] => by simp [reduceVector]
  | x :: y :: rest => by
    have := length_reduceVector_snd rest
    simp [reduceVector, this]
    omega

theorem getD_reduceVector_fst :
    ∀ (v : List Scalar) (i : ℕ), (reduceVector v).1.getD i 0 = v.getD (2 * i) 0
  | [], i => by simp [reduceVector]
  | [x], i => by
    rcases i with _ | i
    · simp [reduceVector]
    · rw [show 2 * (i + 1) = (2 * i + 1) + 1 by ring]
      simp [reduceVector, List.getD_cons_succ]
  | x :: y :: rest, i => by
    rcases i with _ | i
    · simp [reduceVector]
    · have ih := getD_reduceVector_fst rest i
      rw [show 2 * (i + 1) = (2 * i + 1) + 1 by ring]
      simp only [reduceVector, List.getD_cons_succ]
      exact ih
  termination_by v => v.length

theorem getD_reduceVector_snd :
    ∀ (v : List Scalar) (i : ℕ), (reduceVector v).2.getD i 0 = v.getD (2 * i + 1) 0
  | [], i => by simp [reduceVector]
  | [x], i => by
    rcases i with _ | i
    · simp [reduceVector]
    · rw [show 2 * (i + 1) + 1 = (2 * i + 1 + 1) + 1 by ring]
      simp [reduceVector, List.getD_cons_succ]
  | x :: y :: rest, i => by
    rcases i with _ | i
    · simp [reduceVector]
    · have ih := getD_reduceVector_snd rest i
      rw [show 2 * (i + 1) + 1 = (2 * i + 1 + 1) + 1 by ring]
      simp only [reduceVector, List.getD_cons_succ]
      exact ih
  termination_by v => v.length

/-- C7.  `NewWeightNormLinearPublic` returns parameters with `Mu = Ro²`; the
recursive public parameters built by both `ProveWNLA` and `VerifyWNLA`
(`wnlaFold`) have `Ro' = Mu`, `Mu' = Mu²`, halve `C`, `HVec`, `GVec` by parity
split (entry `i` of a folded vector combines entries `2i` and `2i+1`), and
satisfy the invariant `Mu' = Ro'²`. -/
theorem c7_mu_ro_invariant (g : Point) (gvec hvec : List Point) (c : List Scalar)
    (ro : Scalar) (p : WeightNormLinearPublic) (y : Scalar) :
    (NewWeightNormLinearPublic g gvec hvec c ro).Mu
        = (NewWeightNormLinearPublic g gvec hvec c ro).Ro ^ 2
    ∧ (wnlaFold p y).Ro = p.Mu
    ∧ (wnlaFold p y).Mu = p.Mu * p.Mu
    ∧ (wnlaFold p y).Mu = (wnlaFold p y).Ro ^ 2
    ∧ (wnlaFold p y).HVec.length = (p.HVec.length + 1) / 2
    ∧ (wnlaFold p y).GVec.length = (p.GVec.length + 1) / 2
    ∧ (wnlaFold p y).C.length = (p.C.length + 1) / 2
    ∧ (∀ i, (wnlaFold p y).C.getD i 0 = p.C.getD (2 * i) 0 + p.C.getD (2 * i + 1) 0 * y)
    ∧ (∀ i, (wnlaFold p y).HVec.getD i 0
        = p.HVec.getD (2 * i) 0 + y * p.HVec.getD (2 * i + 1) 0)
    ∧ (∀ i, (wnlaFold p y).GVec.getD i 0
        = p.Ro * p.GVec.getD (2 * i) 0 + y * p.GVec.getD (2 * i + 1) 0) := by
  refine ⟨by simp [NewWeightNormLinearPublic, sq], rfl, rfl, by simp [wnlaFold, sq], ?_, ?_, ?_, ?_, ?_, ?_⟩
  · rw [wnlaFold]
    simp only [length_vectorPointsAdd, length_vectorPointMulOnScalar, reducePoints,
      length_reduceVector_fst, length_reduceVector_snd]
    omega
  · rw [wnlaFold]
    simp only [length_vectorPointsAdd, length_vectorPointMulOnScalar, reducePoints,
      length_reduceVector_fst, length_reduceVector_snd]
    omega
  · rw [wnlaFold]
    simp only [length_vectorAdd, length_vectorMulOnScalar,
      length_reduceVector_fst, length_reduceVector_snd]
    omega
  · intro i
    rw [wnlaFold]
    simp only [getD_vectorAdd, getD_vectorMulOnScalar,
      getD_reduceVector_fst, getD_reduceVector_snd]
  · intro i
    rw [wnlaFold]
    simp only [getD_vectorPointsAdd, getD_vectorPointMulOnScalar, reducePoints,
      getD_reduceVector_fst, getD_reduceVector_snd]
  · intro i
    rw [wnlaFold]
    simp only [getD_vectorPointsAdd, getD_vectorPointMulOnScalar, reducePoints,
      getD_reduceVector_fst, getD_reduceVector_snd]

theorem verifyWNLAx_spec (chal : List FSItem → Scalar) :
    ∀ (X R : List Point) (p : WeightNormLinearPublic) (L N : List Scalar)
      (Com : Point) (tr : List FSItem),
      (X.length ≠ R.length →
        verifyWNLAx chal X R p L N Com tr = (Except.error WnlaError.lengthMismatch, tr))
      ∧ (X.length = R.length →
          ((verifyWNLAx chal X R p L N Com tr).1 = Except.ok ()
            ↔ (verifyWNLAFold chal X R p Com tr).1.Commit L N
                = (verifyWNLAFold chal X R p Com tr).2.1))
  | [], R, p, L, N, Com, tr => by
    constructor
    · intro hne
      simp only [verifyWNLAx]
      rw [if_pos (by simpa using hne)]
    · intro heq
      have hR : R = [] := List.length_eq_zero.mp heq.symm
      subst hR
      simp only [verifyWNLAx, verifyWNLAFold]
      by_cases hc : p.Commit L N = Com
      · simp [hc]
      · simp [hc]
  | x :: xs, R, p, L, N, Com, tr => by
    constructor
    · intro hne
      rcases R with _ | ⟨r, rs⟩
      · simp only [verifyWNLAx]
      · simp only [verifyWNLAx]
        rw [if_pos (by simpa using hne)]
    · intro heq
      rcases R with _ | ⟨r, rs⟩
      · simp at heq
      · have heq2 : xs.length = rs.length := by simpa using heq
        simp only [verifyWNLAx, verifyWNLAFold]
        rw [if_neg (by simpa using heq)]
        exact (verifyWNLAx_spec chal xs rs (wnlaFold p _) L N _ _).2 heq2

/-- C5.  `VerifyWNLA` returns a non-nil error iff `|X| ≠ |R|` (and then it
returns with the transcript untouched, before absorbing anything), or the base
case is reached and the recomputed commitment `Commit(L, N)` (under the folded
public parameters) differs from the folded commitment; it never fails for any
other reason. -/
theorem c5_verifywnla_error_conditions (chal : List FSItem → Scalar)
    (p : WeightNormLinearPublic) (proof : WeightNormLinearArgumentProof)
    (Com : Point) (tr : List FSItem) :
    (proof.X.length ≠ proof.R.length →
      VerifyWNLA chal p proof Com tr = (Except.error WnlaError.lengthMismatch, tr))
    ∧ (proof.X.length = proof.R.length →
        ((VerifyWNLA chal p proof Com tr).1 = Except.ok ()
          ↔ (verifyWNLAFold chal proof.X proof.R p Com tr).1.Commit proof.L proof.N
              = (verifyWNLAFold chal proof.X proof.R p Com tr).2.1)) :=
  verifyWNLAx_spec chal proof.X proof.R p proof.L proof.N Com tr

set_option maxRecDepth 40000 in
/-- Witness for C5 at a concrete input: a one-level proof with mismatched
`X`/`R` lengths is rejected with the transcript untouched, and an empty proof
is accepted exactly by commitment equality. -/
theorem c5_verifywnla_error_conditions_witness :
    VerifyWNLA chalSum pubS2 ⟨[0], [], [], []⟩ 0 [] =
        (Except.error WnlaError.lengthMismatch, [])
    ∧ (VerifyWNLA chalSum pubS2 ⟨[], [], [], []⟩ (pubS2.Commit [] []) []).1
        = Except.ok () := by
  constructor
  · exact (c5_verifywnla_error_conditions chalSum pubS2 ⟨[0], [], [], []⟩ 0 []).1 (by decide)
  · exact ((c5_verifywnla_error_conditions chalSum pubS2 ⟨[], [], [], []⟩
      (pubS2.Commit [] []) []).2 (by decide)).mpr (by decide)

set_option maxRecDepth 40000 in
/-- C4 (counterexample).  A proof with `X = []` but `R ≠ []` is rejected by
`VerifyWNLA` even though the recomputed commitment `Commit(L, N)` equals the
claimed commitment: acceptance for `|X| = 0` is *not* decided solely by the
commitment comparison. -/
theorem c4_base_case_counterexample :
    (⟨[0], [], [], []⟩ : WeightNormLinearArgumentProof).X.length = 0
    ∧ (⟨1, [], [], [], 1, 1⟩ : WeightNormLinearPublic).Commit [] [] = 0
    ∧ (VerifyWNLA chalSum ⟨1, [], [], [], 1, 1⟩ ⟨[0], [], [], []⟩ 0 []).1
        ≠ Except.ok () := by decide

/-- C4 (amended).  When `|l| + |n| < 6` the prover returns
`R = X = []`, `L = l`, `N = n` and leaves the transcript untouched; and for
every proof with `|X| = 0` **and** `|R| = 0`, `VerifyWNLA` accepts exactly
when the recomputed commitment `Commit(L, N)` equals the claimed one. -/
theorem c4_base_case (chal : List FSItem → Scalar) (p : WeightNormLinearPublic)
    (Com : Point) (tr : List FSItem) (l n L N : List Scalar)
    (hbase : l.length + n.length < 6) :
    ProveWNLA chal p Com tr l n = (⟨[], [], l, n⟩, tr)
    ∧ ((VerifyWNLA chal p ⟨[], [], L, N⟩ Com tr).1 = Except.ok ()
        ↔ p.Commit L N = Com) := by
  constructor
  · rw [ProveWNLA]
    rcases hsum : l.length + n.length with _ | k
    · rfl
    · simp only [proveWNLAx]
      rw [if_pos hbase]
  · have hbody : VerifyWNLA chal p ⟨[], [], L, N⟩ Com tr
        = verifyWNLAx chal [] [] p L N Com tr := rfl
    rw [hbody]
    simp only [verifyWNLAx]
    by_cases hc : p.Commit L N = Com
    · simp [hc]
    · simp [hc]

set_option maxRecDepth 40000 in
/-- Witness for C4 at a concrete input. -/
theorem c4_base_case_witness :
    ProveWNLA chalSum pubS2 0 [] [1, 2] [3] = (⟨[], [], [1, 2], [3]⟩, [])
    ∧ ((VerifyWNLA chalSum pubS2 ⟨[], [], [], []⟩ (pubS2.Commit [] []) []).1
        = Except.ok () ↔ pubS2.Commit [] [] = pubS2.Commit [] []) :=
  c4_base_case chalSum pubS2 0 [] [1, 2] [3] [] [] (by decide)

set_option maxRecDepth 400000 in
/-- C1 (code bug, evaluated).  Concrete WNLA parameters satisfying every
hypothesis of the completeness claim (`Mu = Ro²`, base-vector lengths powers of
two matching the secret-vector lengths): with a transcript-sensitive challenge
function, `VerifyWNLA ∘ ProveWNLA` on fresh transcripts rejects.  Two folding
levels happen here; the prover's recursive call (`wnla.go` line 796) passes
`public.Commit(l', n')` computed with the pre-fold public parameters, while
the verifier folds `Com + y·X + (y²−1)·R`, so the two transcripts absorb
different points from the second level on and the final commitment check
fails. -/
theorem c1_wnla_completeness_fails :
    pubS2.Mu = pubS2.Ro ^ 2
    ∧ pubS2.HVec.length = 2 ^ 3 ∧ pubS2.GVec.length = 2 ^ 2
    ∧ lS2.length = pubS2.HVec.length ∧ nS2.length = pubS2.GVec.length
    ∧ pubS2.C.length = pubS2.HVec.length
    ∧ (VerifyWNLA chalSum pubS2
        (ProveWNLA chalSum pubS2 (pubS2.Commit lS2 nS2) [] lS2 nS2).1
        (pubS2.Commit lS2 nS2) []).1 = Except.error WnlaError.verificationFailed := by
  decide

set_option maxRecDepth 1000000 in
/-- C2 (code bug, evaluated).  The S3 instance: consistent dimensions
(`Nw = 2Nm + No`, `Nl = Nv·K`, bases padded to powers of two), the partition
function routes all of `wO` through `LL`, and the witness satisfies both the
multiplicative constraints `Wm·w + Am = wL ⊙ wR` and the linear constraints
`Wl·w + wv + Al = 0` (with `wv` the committed-value contributions) — yet
`VerifyCircuit ∘ ProveCircuit` on fresh transcripts rejects.  The cause is
the WNLA recursion bug of `wnla.go` line 796 (demonstrated on WNLA directly
under C1): the circuit reduces to a WNLA instance of size `16 + 1`, which takes two
folding rounds, and the prover's and verifier's WNLA transcripts diverge
from the second round on.  (Replacing the recursive commitment with the
folded-parameters commitment makes this same instance verify.) -/
theorem c2_circuit_completeness_fails :
    s3Pub.Nw = 2 * s3Pub.Nm + s3Pub.No
    ∧ s3Pub.Nl = s3Pub.Nv * s3Pub.K
    ∧ (s3Pub.GVec ++ s3Pub.GVec_).length = 2 ^ 0
    ∧ (s3Pub.HVec ++ s3Pub.HVec_).length = 2 ^ 4
    ∧ (∀ o < s3Pub.No, s3Pub.F PartitionType.LL o = some o)
    ∧ (∀ i < s3Pub.Nm, vectorMul (s3Pub.Wm.getD i []) s3w + s3Pub.Am.getD i 0
        = s3Priv.Wl.getD i 0 * s3Priv.Wr.getD i 0)
    ∧ (∀ i < s3Pub.Nl, vectorMul (s3Pub.Wl.getD i []) s3w + s3wv.getD i 0
        + s3Pub.Al.getD i 0 = 0)
    ∧ (VerifyCircuit chalSum s3Pub [s3Pub.CommitCircuit [3, 5] 4] []
        (ProveCircuit chalSum s3Pub [] s3Priv [1, 2, 3, 4, 5, 6, 7]
          [1, 2, 3, 4, 5, 6] [1, 2, 3, 4, 5] [1, 2] [3]).proof).1
      = Except.error WnlaError.verificationFailed := by decide

set_option maxRecDepth 1000000 in
/-- C8 (code bug, evaluated).  With `Nm = 3` (extension buffers pad `GVec` to
`4 = 2²` and `HVec` to `16 = 2⁴`), the prover's final `lT` and `cT` are
zero-padded to `|HVec| + |HVec_| = 16`, but `nT` keeps length `3`:
the extension loop compares against `|GVec_| + |GVec_| = 2` (`circuit.go`
line 492 uses `GVec_` twice) instead of `|GVec| + |GVec_| = 4`. -/
theorem c8_nt_padding_fails :
    c8Pub.GVec.length + c8Pub.GVec_.length = 4
    ∧ (ProveCircuit chalSum c8Pub [] c8Priv [1, 2, 3, 4, 5, 6, 7]
        [1, 2, 3, 4, 5, 6] [1, 2, 3, 4, 5] [1] [1, 2, 3]).nT.length = 3
    ∧ (ProveCircuit chalSum c8Pub [] c8Priv [1, 2, 3, 4, 5, 6, 7]
        [1, 2, 3, 4, 5, 6] [1, 2, 3, 4, 5] [1] [1, 2, 3]).lT.length
      = c8Pub.HVec.length + c8Pub.HVec_.length
    ∧ (ProveCircuit chalSum c8Pub [] c8Priv [1, 2, 3, 4, 5, 6, 7]
        [1, 2, 3, 4, 5, 6] [1, 2, 3, 4, 5] [1] [1, 2, 3]).cT.length
      = c8Pub.HVec.length + c8Pub.HVec_.length := by decide

set_option maxRecDepth 100000 in
/-- C3 (code bug, evaluated).  For `Nd = 2` digits in base `Np = 10`
(challenge `e = 0`), the value row of the prover's `Wl` carries `−Np = −10`
at column 1 while the verifier's carries the hardcoded `−16`
(`reciprocal.go` line 180: `base := bint(16)`), so the two matrices differ;
for `Np = 16` (challenge `e = 7`) prover and verifier agree. -/
theorem c3_value_row_base_mismatch :
    ((proveRangeWl rp10 0).getD 0 []).getD 1 0 = minus (bint 10)
    ∧ ((verifyRangeWl rp10 0).getD 0 []).getD 1 0 = minus (bint 16)
    ∧ proveRangeWl rp10 0 ≠ verifyRangeWl rp10 0
    ∧ proveRangeWm rp10 0 = verifyRangeWm rp10 0
    ∧ proveRangeWl { rp10 with Np := 16 } 7 = verifyRangeWl { rp10 with Np := 16 } 7 := by
  decide

end Bulletproofs
